import Mathlib

/-!
Verification of the lon dependency-lock tool.

Shallow embedding of the core of the repository:
- `git.rs`: `Revision`, `Commit`, `RevList` and their constructors;
- `commit_message.rs`: the commit-message composer;
- `sources.rs`: the source registry and the per-source update algorithms;
- `cli.rs`: the direct update command, the add command, and the bot
  orchestrator.

Strings are modelled as lists of characters (`Str`).  Fallible collaborator
operations (subprocess wrappers for git, the prefetch hashing tools, the
forge REST calls) are modelled as oracle functions supplied through
environment records, returning `Except Err`.  A Rust panic (slicing out of
bounds in `Revision::short`) is modelled by `Option`: `none` is the panic.
-/
/-- Strings as lists of characters. -/
abbrev Str : Type := List Char
/-- Turn a Lean string literal into the `Str` model. -/
def str (s : String) : Str := s.data
/-! ### Rust `str` primitives used by `git.rs` -/
/-- Split a string at every newline character (keeping empty segments),
mirroring the first phase of Rust `str::lines`. -/
def splitNewline : Str → List Str
  | [] => [[]]
  | c :: cs =>
    if c = '\n' then [] :: splitNewline cs
    else
      match splitNewline cs with
      | [] => [[c]]
      | l :: ls => (c :: l) :: ls
/-- Drop one trailing empty segment, mirroring the terminator semantics of
Rust `str::lines` (a trailing newline does not produce an empty line). -/
def dropLastEmpty : List Str → List Str
  | [] => []
  | [l] => if l = [] then [] else [l]
  | l :: ls => l :: dropLastEmpty ls
/-- Strip one trailing carriage return from a line, as Rust `str::lines`
does. -/
def stripTrailingCR (l : Str) : Str :=
  if l.getLast? = some '\r' then l.dropLast else l
/-- Rust `str::lines`: split at newlines, drop the empty segment produced by
a trailing newline, strip a trailing carriage return from each line. -/
def rustLines (s : Str) : List Str :=
  (dropLastEmpty (splitNewline s)).map stripTrailingCR
/-- Rust `str::split_once`: split at the first occurrence of a separator,
returning `none` when the separator does not occur. -/
def splitOnce (sep : Char) : Str → Option (Str × Str)
  | [] => none
  | c :: cs =>
    if c = sep then some ([], cs)
    else (splitOnce sep cs).map (fun p => (c :: p.1, p.2))
/-- The number of bytes of the UTF-8 encoding of a string; Rust slicing
indices are byte offsets into this encoding. -/
def utf8Len (s : Str) : Nat := (s.map Char.utf8Size).sum
/-- Rust byte slicing `&s[..n]`: take the characters covering exactly the
first `n` bytes of the UTF-8 encoding.  `none` models the panic that Rust
raises when the string is shorter than `n` bytes or byte `n` is not a
character boundary. -/
def takeBytes : Nat → Str → Option Str
  | 0, _ => some []
  | _ + 1, [] => none
  | n + 1, c :: cs =>
    if Char.utf8Size c ≤ n + 1 then
      (takeBytes (n + 1 - Char.utf8Size c) cs).map (fun t => c :: t)
    else none
/-! ### `git.rs`: revisions, commits, rev lists -/
/-- Embeds `Revision` (git.rs): a git revision, just the SHA hash string. -/
structure Revision where
  val : Str
deriving DecidableEq, Repr
/-- Embeds `Revision::new`. -/
def Revision.new (s : Str) : Revision := ⟨s⟩
/-- Embeds `Revision::short`: `&self.as_str()[..7]`.  Returns `none` (panic) when
the revision is shorter than 7 bytes or byte 7 is not a character
boundary. -/
def Revision.short (r : Revision) : Option Str := takeBytes 7 r.val
/-- Embeds `Commit` (git.rs): a commit made up of a revision and a message. -/
structure Commit where
  revision : Revision
  message : Str
deriving DecidableEq, Repr
/-- Embeds `Commit::from_str`. -/
def Commit.from_str (revision message : Str) : Commit :=
  ⟨Revision.new revision, message⟩
/-- Embeds `Commit::message_summary`: `self.message.lines().next().unwrap_or_default()`. -/
def Commit.message_summary (c : Commit) : Str :=
  (rustLines c.message).headD []
/-- Embeds `RevList` (git.rs). -/
structure RevList where
  revs : List Commit
deriving DecidableEq, Repr
/-- Embeds `RevList::from_commits`. -/
def RevList.from_commits (commits : List Commit) : RevList := ⟨commits⟩
/-- Embeds `RevList::from_git_output`: keep the lines containing a space, split
each at the first space into revision and message. -/
def RevList.from_git_output (s : Str) : RevList :=
  ⟨(rustLines s).filterMap
    (fun l => (splitOnce ' ' l).map (fun p => Commit.from_str p.1 p.2))⟩
/-- The line-oriented text corresponding to a sequence of
(revision, message) pairs: one `"<rev> <message>"` line per pair, joined by
newlines (the shape of `git rev-list --oneline` output after `trim_end`). -/
def renderGitOutput : List (Str × Str) → Str
  | [] => []
  | [p] => p.1 ++ ' ' :: p.2
  | p :: q :: rest => p.1 ++ ' ' :: p.2 ++ '\n' :: renderGitOutput (q :: rest)
/-! ### `sources.rs`: update summaries -/
/-- Embeds `UpdateSummary` (sources.rs). -/
structure UpdateSummary where
  old_revision : Revision
  new_revision : Revision
  rev_list : Option RevList
deriving DecidableEq, Repr
/-- Embeds `UpdateSummary::new`. -/
def UpdateSummary.new (old_revision new_revision : Revision) : UpdateSummary :=
  ⟨old_revision, new_revision, none⟩
/-- Embeds `UpdateSummary::add_rev_list`. -/
def UpdateSummary.add_rev_list (s : UpdateSummary) (rl : RevList) : UpdateSummary :=
  { s with rev_list := some rl }
/-! ### `commit_message.rs`: the composer -/
/-- Embeds `CommitMessage` (commit_message.rs). -/
structure CommitMessage where
  updates : List (Str × UpdateSummary)
deriving DecidableEq, Repr
/-- Embeds `CommitMessage::add_summary`. -/
def CommitMessage.add_summary (m : CommitMessage) (name : Str) (s : UpdateSummary) :
    CommitMessage :=
  ⟨m.updates ++ [(name, s)]⟩
/-- Embeds `CommitMessage::is_empty`. -/
def CommitMessage.is_empty (m : CommitMessage) : Bool := m.updates.isEmpty
/-- Map a fallible function over a list, `none` when any element fails;
models an iterator over calls that may panic. -/
def mapOpt (f : α → Option β) : List α → Option (List β)
  | [] => some []
  | x :: xs =>
    match f x with
    | none => none
    | some y => (mapOpt f xs).map (fun ys => y :: ys)
/-- Decimal rendering of a natural number. -/
def natStr (n : Nat) : Str := (Nat.repr n).data
/-- Embeds `CommitMessage::rev_list_overview`.  The outer `Option` is the panic of
`Revision::short` on a too-short revision; the inner `Option` mirrors the
Rust `Option<String>` result (`none` when the summary carries no rev
list). -/
def CommitMessage.rev_list_overview (summary : UpdateSummary) (indent : Nat) :
    Option (Option Str) :=
  match summary.rev_list with
  | none => some none
  | some rl =>
    let pad : Str := List.replicate indent ' '
    (mapOpt
      (fun c => (c.revision.short).map
        (fun sh => str "\n" ++ pad ++ str "  " ++ sh ++ str " " ++ c.message_summary))
      rl.revs).map
      (fun pieces =>
        some ((pad ++ str "Last " ++ natStr rl.revs.length ++ str " commits:") ++ pieces.flatten))
/-- Embeds `CommitMessage::body`.  `none` models the panic of `Revision::short`
inside the rev-list overview. -/
def CommitMessage.body (m : CommitMessage) : Option Str :=
  match m.updates with
  | [(_, summary)] =>
    match CommitMessage.rev_list_overview summary 0 with
    | none => none
    | some none =>
      some (str "\n" ++ str "  " ++ summary.old_revision.val ++ str "\n"
        ++ str "→ " ++ summary.new_revision.val ++ str "\n")
    | some (some o) =>
      some (str "\n" ++ str "  " ++ summary.old_revision.val ++ str "\n"
        ++ str "→ " ++ summary.new_revision.val ++ str "\n"
        ++ str "\n" ++ o ++ str "\n")
  | updates =>
    (mapOpt
      (fun p =>
        match CommitMessage.rev_list_overview p.2 2 with
        | none => none
        | some none =>
          some (str "\n" ++ str "• " ++ p.1 ++ str ":\n"
            ++ str "    " ++ p.2.old_revision.val ++ str "\n"
            ++ str "  → " ++ p.2.new_revision.val ++ str "\n")
        | some (some o) =>
          some (str "\n" ++ str "• " ++ p.1 ++ str ":\n"
            ++ str "    " ++ p.2.old_revision.val ++ str "\n"
            ++ str "  → " ++ p.2.new_revision.val ++ str "\n"
            ++ str "\n" ++ o ++ str "\n"))
      updates).map List.flatten
/-- Embeds `impl fmt::Display for CommitMessage`: the full rendered message, title
line plus body.  `none` models the panic of `Revision::short`. -/
def CommitMessage.display (m : CommitMessage) : Option Str :=
  (m.body).map
    (fun b =>
      (match m.updates with
       | [(name, _)] => str "lon: update " ++ name ++ str "\n"
       | _ => str "lon: update\n") ++ b)
/-! ### Errors and collaborator calls -/
/-- Errors of the embedded program.  Collaborator failures are injected by
the environment as `transport`; `context` mirrors `with_context`
wrapping; the remaining variants are the `bail!` sites in `cli.rs`. -/
inductive Err where
  | transport (msg : Str)
  | notFound (name : Str)
  | alreadyExists (name : Str)
  | noSourcesInLock
  | noUpdates
  | badIdentifier (identifier : Str)
  | panicShortRev
  | context (name : Str) (e : Err)
deriving DecidableEq, Repr
/-- One upstream discovery/hashing/metadata call made by an update
algorithm; used to state that the frozen and no-change paths perform no
such calls. -/
inductive Call where
  | find_newest_revision (url branch : Str)
  | prefetch_git (url rev : Str) (submodules : Bool)
  | prefetch_tarball (url : Str)
  | get_last_modified (url rev : Str)
deriving DecidableEq, Repr
/-- A nix hash is opaque to the core; modelled as its string rendering. -/
abbrev NixHash : Type := Str
/-- Oracle for the source-discovery collaborators (`git.rs` subprocess
wrappers and `nix.rs` prefetchers): `git::find_newest_revision`,
`nix::prefetch_git`, `nix::prefetch_tarball`, `git::get_last_modified`. -/
structure GitEnv where
  find_newest_revision : Str → Str → Except Err Revision
  prefetch_git : Str → Str → Bool → Except Err NixHash
  prefetch_tarball : Str → Except Err NixHash
  get_last_modified : Str → Str → Except Err Nat
/-! ### `sources.rs`: Git sources -/
/-- Embeds `GitSource` (sources.rs). -/
structure GitSource where
  url : Str
  branch : Str
  revision : Revision
  hash : NixHash
  last_modified : Option Nat
  submodules : Bool
  frozen : Bool
deriving DecidableEq, Repr
/-- Embeds `GitSource::lock`: compute the new hash, then replace revision and
hash, then fetch and replace `lastModified`.  The returned source is the
state after the call, also when the call fails partway. -/
def GitSource.lock (env : GitEnv) (s : GitSource) (revision : Revision) :
    Except Err Unit × GitSource × List Call :=
  match env.prefetch_git s.url revision.val s.submodules with
  | .error e => (.error e, s, [Call.prefetch_git s.url revision.val s.submodules])
  | .ok new_hash =>
    let s1 := { s with revision := revision, hash := new_hash }
    match env.get_last_modified s1.url revision.val with
    | .error e =>
      (.error e, s1,
        [Call.prefetch_git s.url revision.val s.submodules,
         Call.get_last_modified s.url revision.val])
    | .ok lm =>
      (.ok (), { s1 with last_modified := some lm },
        [Call.prefetch_git s.url revision.val s.submodules,
         Call.get_last_modified s.url revision.val])
/-- Embeds `GitSource::update`. -/
def GitSource.update (env : GitEnv) (s : GitSource) :
    Except Err (Option UpdateSummary) × GitSource × List Call :=
  if s.frozen then (.ok none, s, [])
  else
    match env.find_newest_revision s.url s.branch with
    | .error e => (.error e, s, [Call.find_newest_revision s.url s.branch])
    | .ok newest_revision =>
      let current_revision := s.revision
      if current_revision = newest_revision then
        (.ok none, s, [Call.find_newest_revision s.url s.branch])
      else
        match GitSource.lock env s newest_revision with
        | (.error e, s1, calls) =>
          (.error e, s1, Call.find_newest_revision s.url s.branch :: calls)
        | (.ok _, s1, calls) =>
          (.ok (some (UpdateSummary.new current_revision newest_revision)), s1,
            Call.find_newest_revision s.url s.branch :: calls)
/-- Embeds `GitSource::new` (used by the add command). -/
def GitSource.new (env : GitEnv) (url branch : Str) (revision : Option Str)
    (submodules frozen : Bool) : Except Err GitSource :=
  match (match revision with
         | some rev => Except.ok (Revision.new rev)
         | none => env.find_newest_revision url branch) with
  | .error e => .error e
  | .ok rev =>
    match env.prefetch_git url rev.val submodules with
    | .error e => .error e
    | .ok hash =>
      match env.get_last_modified url rev.val with
      | .error e => .error e
      | .ok last_modified =>
        .ok ⟨url, branch, rev, hash, some last_modified, submodules, frozen⟩
/-! ### `sources.rs`: GitHub sources -/
/-- The constant `GITHUB_URL` (sources.rs). -/
def GITHUB_URL : Str := str "https://github.com"
/-- Embeds `GitHubSource` (sources.rs). -/
structure GitHubSource where
  owner : Str
  repo : Str
  branch : Str
  revision : Revision
  url : Str
  hash : NixHash
  frozen : Bool
deriving DecidableEq, Repr
/-- Embeds `GitHubSource::url`: the tarball URL for a revision of the source. -/
def GitHubSource.tarball_url (owner repo revision : Str) : Str :=
  GITHUB_URL ++ str "/" ++ owner ++ str "/" ++ repo ++ str "/archive/"
    ++ revision ++ str ".tar.gz"
/-- Embeds `GitHubSource::git_url`: the URL to the GitHub repository. -/
def GitHubSource.git_url (owner repo : Str) : Str :=
  GITHUB_URL ++ str "/" ++ owner ++ str "/" ++ repo ++ str ".git"
/-- Embeds `GitHubSource::lock`: derive the tarball URL, compute its hash, then
replace revision, hash and URL together. -/
def GitHubSource.lock (env : GitEnv) (s : GitHubSource) (revision : Revision) :
    Except Err Unit × GitHubSource × List Call :=
  let new_url := GitHubSource.tarball_url s.owner s.repo revision.val
  match env.prefetch_tarball new_url with
  | .error e => (.error e, s, [Call.prefetch_tarball new_url])
  | .ok new_hash =>
    (.ok (), { s with revision := revision, hash := new_hash, url := new_url },
      [Call.prefetch_tarball new_url])
/-- Embeds `GitHubSource::update`. -/
def GitHubSource.update (env : GitEnv) (s : GitHubSource) :
    Except Err (Option UpdateSummary) × GitHubSource × List Call :=
  if s.frozen then (.ok none, s, [])
  else
    match env.find_newest_revision (GitHubSource.git_url s.owner s.repo) s.branch with
    | .error e =>
      (.error e, s, [Call.find_newest_revision (GitHubSource.git_url s.owner s.repo) s.branch])
    | .ok newest_revision =>
      let current_revision := s.revision
      if current_revision = newest_revision then
        (.ok none, s, [Call.find_newest_revision (GitHubSource.git_url s.owner s.repo) s.branch])
      else
        match GitHubSource.lock env s newest_revision with
        | (.error e, s1, calls) =>
          (.error e, s1,
            Call.find_newest_revision (GitHubSource.git_url s.owner s.repo) s.branch :: calls)
        | (.ok _, s1, calls) =>
          (.ok (some (UpdateSummary.new current_revision newest_revision)), s1,
            Call.find_newest_revision (GitHubSource.git_url s.owner s.repo) s.branch :: calls)
/-- Embeds `GitHubSource::new` (used by the add command). -/
def GitHubSource.new (env : GitEnv) (owner repo branch : Str) (revision : Option Str)
    (frozen : Bool) : Except Err GitHubSource :=
  match (match revision with
         | some rev => Except.ok (Revision.new rev)
         | none => env.find_newest_revision (GitHubSource.git_url owner repo) branch) with
  | .error e => .error e
  | .ok rev =>
    let url := GitHubSource.tarball_url owner repo rev.val
    match env.prefetch_tarball url with
    | .error e => .error e
    | .ok hash => .ok ⟨owner, repo, branch, rev, url, hash, frozen⟩
/-! ### `sources.rs`: the polymorphic source and the registry -/
/-- Embeds `Source` (sources.rs): the closed sum of the two variants. -/
inductive Source where
  | Git (s : GitSource)
  | GitHub (s : GitHubSource)
deriving DecidableEq, Repr
/-- Embeds `Source::update`: dispatch per variant. -/
def Source.update (env : GitEnv) :
    Source → Except Err (Option UpdateSummary) × Source × List Call
  | .Git s =>
    match GitSource.update env s with
    | (r, s1, calls) => (r, .Git s1, calls)
  | .GitHub s =>
    match GitHubSource.update env s with
    | (r, s1, calls) => (r, .GitHub s1, calls)
/-- Embeds `Source::frozen`. -/
def Source.frozen : Source → Bool
  | .Git s => s.frozen
  | .GitHub s => s.frozen
/-- Embeds `Sources` (sources.rs): the registry.  The underlying `BTreeMap` is
modelled as an association list whose order stands for the map's sorted
iteration order. -/
structure Sources where
  map : List (Str × Source)
deriving DecidableEq, Repr
/-- Insert-or-replace on the association list, the semantics of
`BTreeMap::insert`: an existing binding for the key is overwritten in
place, otherwise the binding is appended. -/
def insertAssoc (name : Str) (source : Source) : List (Str × Source) → List (Str × Source)
  | [] => [(name, source)]
  | (k, v) :: rest =>
    if k = name then (k, source) :: rest
    else (k, v) :: insertAssoc name source rest
/-- Embeds `Sources::add`: `self.map.insert(name.into(), source)`. -/
def Sources.add (ss : Sources) (name : Str) (source : Source) : Sources :=
  ⟨insertAssoc name source ss.map⟩
/-- Embeds `Sources::remove`. -/
def Sources.remove (ss : Sources) (name : Str) : Sources :=
  ⟨ss.map.filter (fun p => decide (p.1 ≠ name))⟩
/-- Embeds `Sources::get_mut` (as a lookup; the mutation is modelled by
`Sources.add` of the updated source). -/
def Sources.get_mut (ss : Sources) (name : Str) : Option Source :=
  (ss.map.find? (fun p => decide (p.1 = name))).map (fun p => p.2)
/-- Embeds `Sources::contains`. -/
def Sources.contains (ss : Sources) (name : Str) : Bool :=
  (ss.map.find? (fun p => decide (p.1 = name))).isSome
/-- Embeds `Sources::names`. -/
def Sources.names (ss : Sources) : List Str := ss.map.map (fun p => p.1)
/-! ### `cli.rs`: the LON_LIST_COMMITS limit -/
/-- The largest value of Rust `usize` (64-bit). -/
def USIZE_MAX : Nat := 2 ^ 64 - 1
/-- The numeric value of a digit string. -/
def digitsVal (s : Str) : Nat :=
  s.foldl (fun a c => a * 10 + (c.toNat - 48)) 0
/-- Rust `str::parse::<usize>`: an optional leading plus sign followed by at
least one decimal digit, value within the `usize` range; anything else
fails. -/
def parse_usize (s : Str) : Option Nat :=
  let t := match s with
           | '+' :: rest => rest
           | _ => s
  if t ≠ [] ∧ t.all Char.isDigit then
    if digitsVal t ≤ USIZE_MAX then some (digitsVal t) else none
  else none
/-- The bot's commit-history limit (cli.rs `bot_fallible`):
`match env::var("LON_LIST_COMMITS") { Ok(s) => s.parse::<usize>().unwrap_or(50), Err(_) => 0 }`.
The argument is the value of the environment variable, `none` when it is
unset. -/
def list_commits_limit (v : Option Str) : Nat :=
  match v with
  | some s => (parse_usize s).getD 50
  | none => 0
/-! ### `cli.rs`: the direct update command -/
/-- The observable side effects of the direct update command:
one `update_source` per processed source, `persist` for the single
registry write. -/
inductive UpdateAction where
  | update_source (name : Str)
  | persist
deriving DecidableEq, Repr
/-- The per-source loop of `cli.rs update`: look each selected name up
(missing name aborts), run the per-source update, collect every summary,
threading the mutated registry. -/
def updateLoop (env : GitEnv) :
    List Str → Sources → List (Str × UpdateSummary) →
    Except Err (Sources × List (Str × UpdateSummary)) × List UpdateAction
  | [], ss, cm => (.ok (ss, cm), [])
  | name :: rest, ss, cm =>
    match ss.get_mut name with
    | none => (.error (Err.notFound name), [])
    | some source =>
      match Source.update env source with
      | (.error e, _, _) => (.error (Err.context name e), [UpdateAction.update_source name])
      | (.ok osum, source1, _) =>
        let ss1 := ss.add name source1
        let cm1 := match osum with
                   | some summary => cm ++ [(name, summary)]
                   | none => cm
        let next := updateLoop env rest ss1 cm1
        (next.1, UpdateAction.update_source name :: next.2)
/-- Embeds `cli.rs update`: select one name or all names, fail on an empty
selection, run the loop, fail with "no updates available" when no summary
was produced, otherwise persist the registry once at the end.  The second
component is the action trace; persistence shows up as
`UpdateAction.persist`. -/
def selected_names (sources : Sources) (arg_name : Option Str) : List Str :=
  match arg_name with
  | some n => [n]
  | none => sources.names
/-- The tail of `cli.rs update` once the selection is fixed: fail on an
empty selection, run the loop, fail with "no updates available" when no
summary was produced, otherwise persist the registry once at the end. -/
def update_selected (env : GitEnv) (sources : Sources) (names : List Str) :
    Except Err Sources × List UpdateAction :=
  if names = [] then (.error Err.noSourcesInLock, [])
  else
    match updateLoop env names sources [] with
    | (.error e, acts) => (.error e, acts)
    | (.ok (ss1, cm), acts) =>
      if cm = [] then (.error Err.noUpdates, acts)
      else (.ok ss1, acts ++ [UpdateAction.persist])
def update_command (env : GitEnv) (sources : Sources) (arg_name : Option Str) :
    Except Err Sources × List UpdateAction :=
  update_selected env sources (selected_names sources arg_name)
/-! ### `cli.rs`: the add commands -/
/-- Embeds `cli.rs add_git`: reject an existing name, construct the source,
insert it, persist. -/
def add_git_command (env : GitEnv) (sources : Sources) (name url branch : Str)
    (revision : Option Str) (submodules frozen : Bool) : Except Err Sources :=
  if sources.contains name then .error (Err.alreadyExists name)
  else
    match GitSource.new env url branch revision submodules frozen with
    | .error e => .error e
    | .ok s => .ok (sources.add name (Source.Git s))
/-- Embeds `cli.rs add_github`: split the identifier at the first slash, default
the name to the repository, reject an existing name, construct, insert,
persist. -/
def add_github_command (env : GitEnv) (sources : Sources) (identifier : Str)
    (arg_name : Option Str) (branch : Str) (revision : Option Str)
    (frozen : Bool) : Except Err Sources :=
  match splitOnce '/' identifier with
  | none => .error (Err.badIdentifier identifier)
  | some (owner, repo) =>
    let name := arg_name.getD repo
    if sources.contains name then .error (Err.alreadyExists name)
    else
      match GitHubSource.new env owner repo branch revision frozen with
      | .error e => .error e
      | .ok s => .ok (sources.add name (Source.GitHub s))
/-! ### `cli.rs`: the bot orchestrator -/
/-- The observable events of one bot run, in order of occurrence. -/
inductive BotEvent where
  | warn_missing (name : Str)
  | skip_frozen (name : Str)
  | checkout (reference : Str)
  | checkout_branch (branch : Str)
  | no_updates (name : Str)
  | persisted (name : Str)
  | committed (name : Str)
  | pushed (branch : Str)
  | pr_opened (name pull_request_url : Str)
  | pr_warn (name : Str)
deriving DecidableEq, Repr
/-- Oracle for everything the bot calls besides the update algorithm:
`Sources::read`, `git::current_rev`, `git::checkout`, `Sources::write`
plus `LonNix::update`, `git::commit`, `git::force_push`,
`Source::rev_list`, and the forge's `open_pull_request`; plus the
`LON_LIST_COMMITS` environment variable. -/
structure BotEnv where
  git : GitEnv
  read_sources : Except Err Sources
  current_rev : Except Err Str
  checkout : Str → Bool → Except Err Unit
  write : Sources → Except Err Unit
  lon_nix_update : Except Err Unit
  commit : Str → Except Err Unit
  force_push : Str → Except Err Unit
  rev_list : Source → UpdateSummary → Nat → Except Err RevList
  open_pull_request : Str → Str → Option Str → Except Err Str
  list_commits_var : Option Str
/-- The per-source loop of `cli.rs bot_fallible`.  Per source: work on a
private copy of the registry, skip missing (warn) and frozen sources,
check out the base reference, force-create the `lon/<name>` branch, run the
update (failure is fatal), skip when there is nothing to update, enrich the
summary with a rev list when the limit is positive (failure is fatal),
persist the private copy, commit, force-push (all fatal on failure), then
ask the forge for a pull request — the only step whose failure is merely
logged. -/
def bot_loop (env : BotEnv) (base_ref : Str) (sources : Sources) (list_commits : Nat) :
    List Str → Except Err Unit × List BotEvent
  | [] => (.ok (), [])
  | name :: rest =>
    match sources.get_mut name with
    | none =>
      let next := bot_loop env base_ref sources list_commits rest
      (next.1, BotEvent.warn_missing name :: next.2)
    | some source =>
      if source.frozen then
        let next := bot_loop env base_ref sources list_commits rest
        (next.1, BotEvent.skip_frozen name :: next.2)
      else
        match env.checkout base_ref false with
        | .error e => (.error e, [BotEvent.checkout base_ref])
        | .ok _ =>
          let branch := str "lon/" ++ name
          match env.checkout branch true with
          | .error e => (.error e, [BotEvent.checkout base_ref, BotEvent.checkout_branch branch])
          | .ok _ =>
            let ev0 := [BotEvent.checkout base_ref, BotEvent.checkout_branch branch]
            match Source.update env.git source with
            | (.error e, _, _) => (.error (Err.context name e), ev0)
            | (.ok none, _, _) =>
              let next := bot_loop env base_ref sources list_commits rest
              (next.1, ev0 ++ BotEvent.no_updates name :: next.2)
            | (.ok (some summary), source1, _) =>
              let m_sources := sources.add name source1
              match (if 0 < list_commits then
                       match env.rev_list source1 summary list_commits with
                       | .error e => .error e
                       | .ok rl => .ok (summary.add_rev_list rl)
                     else .ok summary : Except Err UpdateSummary) with
              | .error e => (.error e, ev0)
              | .ok summary1 =>
                let commit_message : CommitMessage := ⟨[(name, summary1)]⟩
                match env.write m_sources with
                | .error e => (.error e, ev0)
                | .ok _ =>
                  match env.lon_nix_update with
                  | .error e => (.error e, ev0)
                  | .ok _ =>
                    let ev1 := ev0 ++ [BotEvent.persisted name]
                    match commit_message.display with
                    | none => (.error Err.panicShortRev, ev1)
                    | some msg_str =>
                      match env.commit msg_str with
                      | .error e => (.error e, ev1)
                      | .ok _ =>
                        let ev2 := ev1 ++ [BotEvent.committed name]
                        match env.force_push branch with
                        | .error e => (.error e, ev2)
                        | .ok _ =>
                          let ev3 := ev2 ++ [BotEvent.pushed branch]
                          match commit_message.body with
                          | none => (.error Err.panicShortRev, ev3)
                          | some body_str =>
                            let next := bot_loop env base_ref sources list_commits rest
                            match env.open_pull_request branch name (some body_str) with
                            | .ok pull_request_url =>
                              (next.1, ev3 ++ BotEvent.pr_opened name pull_request_url :: next.2)
                            | .error _ =>
                              (next.1, ev3 ++ BotEvent.pr_warn name :: next.2)
/-- Embeds `cli.rs bot_fallible`: read the registry, compute the commit-history
limit from `LON_LIST_COMMITS`, loop over all names. -/
def bot_fallible (env : BotEnv) (base_ref : Str) : Except Err Unit × List BotEvent :=
  match env.read_sources with
  | .error e => (.error e, [])
  | .ok sources =>
    bot_loop env base_ref sources (list_commits_limit env.list_commits_var) sources.names
/-- Embeds `cli.rs bot`: capture the base reference, run the fallible part, then
unconditionally check the base reference out again (the final checkout runs
also when the loop aborted early; its own failure replaces the result). -/
def bot (env : BotEnv) : Except Err Unit × List BotEvent :=
  match env.current_rev with
  | .error e => (.error e, [])
  | .ok base_ref =>
    let r := bot_fallible env base_ref
    match env.checkout base_ref false with
    | .error e => (.error e, r.2 ++ [BotEvent.checkout base_ref])
    | .ok _ => (r.1, r.2 ++ [BotEvent.checkout base_ref])
def stubGitEnv : GitEnv :=
  { find_newest_revision := fun _ _ => .error (.transport [])
    prefetch_git := fun _ _ _ => .error (.transport [])
    prefetch_tarball := fun _ => .error (.transport [])
    get_last_modified := fun _ _ => .error (.transport []) }
def c8_source_1 : Source := .Git ⟨str "u1", str "m", ⟨str "r1"⟩, str "h1", some 1, false, false⟩
def c8_source_2 : Source := .Git ⟨str "u2", str "m", ⟨str "r2"⟩, str "h2", some 2, false, false⟩
def c8_registry : Sources := ⟨[(str "a", c8_source_1)]⟩
def c1_env : GitEnv :=
  { find_newest_revision := fun _ _ => .ok ⟨str "r2r2r2r2"⟩
    prefetch_git := fun _ _ _ => .ok (str "h2")
    prefetch_tarball := fun _ => .error (.transport [])
    get_last_modified := fun _ _ => .error (.transport []) }
def c1_source : GitSource := ⟨str "u", str "m", ⟨str "r1r1r1r1"⟩, str "h1", some 11, false, false⟩
def c2_frozen_source : Source :=
  .Git ⟨str "u", str "m", ⟨str "r"⟩, str "h", some 1, false, true⟩
def c5_env : GitEnv :=
  { find_newest_revision := fun _ _ => .ok ⟨str "r1"⟩
    prefetch_git := fun _ _ _ => .error (.transport [])
    prefetch_tarball := fun _ => .error (.transport [])
    get_last_modified := fun _ _ => .error (.transport []) }
def c5_source : Source := .Git ⟨str "u", str "m", ⟨str "r1"⟩, str "h", some 1, false, false⟩
def c4_frozen_sources : Sources :=
  ⟨[(str "a", .Git ⟨str "u", str "m", ⟨str "r"⟩, str "h", some 1, false, true⟩)]⟩
def c4_env : GitEnv :=
  { find_newest_revision := fun _ _ => .ok ⟨str "r2"⟩
    prefetch_git := fun _ _ _ => .ok (str "h2")
    prefetch_tarball := fun _ => .ok (str "h2")
    get_last_modified := fun _ _ => .ok 7 }
def c4_sources : Sources :=
  ⟨[(str "a", .Git ⟨str "u", str "m", ⟨str "r1"⟩, str "h1", some 1, false, false⟩)]⟩
def c4_sources_updated : Sources :=
  ⟨[(str "a", .Git ⟨str "u", str "m", ⟨str "r2"⟩, str "h2", some 7, false, false⟩)]⟩
def c3_git_env : GitEnv :=
  { find_newest_revision := fun u _ =>
      if u = str "ua" then .ok ⟨str "r2aaaaa"⟩ else .ok ⟨str "r2bbbbb"⟩
    prefetch_git := fun _ _ _ => .ok (str "h2")
    prefetch_tarball := fun _ => .ok (str "h2")
    get_last_modified := fun _ _ => .ok 7 }
def c3_srcA : Source := .Git ⟨str "ua", str "m", ⟨str "r1aaaaa"⟩, str "h1", some 1, false, false⟩
def c3_srcB : Source := .Git ⟨str "ub", str "m", ⟨str "r1bbbbb"⟩, str "h1", some 1, false, false⟩
def c3_env : BotEnv :=
  { git := c3_git_env
    read_sources := .ok ⟨[(str "a", c3_srcA), (str "b", c3_srcB)]⟩
    current_rev := .ok (str "base")
    checkout := fun _ _ => .ok ()
    write := fun _ => .ok ()
    lon_nix_update := .ok ()
    commit := fun _ => .ok ()
    force_push := fun _ => .ok ()
    rev_list := fun _ _ _ => .ok ⟨[]⟩
    open_pull_request := fun _ n _ =>
      if n = str "a" then .error (Err.transport []) else .ok (str "URL")
    list_commits_var := none }

/-- Claim C2: for every source with `frozen = true`, `update()` returns `None`
immediately, performs zero upstream discovery calls (no branch lookup, no
hash computation, no timestamp fetch), and leaves every field of the source
unchanged. -/
theorem claim_C2 (env : GitEnv) (s : Source) (h : Source.frozen s = true) :
    Source.update env s = (.ok none, s, []) := by
  cases s with
  | Git g =>
    simp only [Source.frozen] at h
    simp [Source.update, GitSource.update, h]
  | GitHub g =>
    simp only [Source.frozen] at h
    simp [Source.update, GitHubSource.update, h]
/-- Claim C5: for every unfrozen source whose upstream newest revision for
the tracked branch equals the locked revision, the update algorithm returns
`None`, performs only the ref lookup (no hash computation or metadata
refresh), leaves `hash`, `lastModified` and `url` unchanged, and running it
a second time on the resulting state behaves identically. -/
theorem claim_C5 (env : GitEnv) (s : Source) (h1 : Source.frozen s = false)
    (h2 : match s with
          | .Git g => env.find_newest_revision g.url g.branch = .ok g.revision
          | .GitHub g =>
            env.find_newest_revision (GitHubSource.git_url g.owner g.repo) g.branch
              = .ok g.revision) :
    (∃ u b, Source.update env s = (.ok none, s, [Call.find_newest_revision u b])) ∧
    Source.update env ((Source.update env s).2.1) = Source.update env s := by
  cases s with
  | Git g =>
    simp only [Source.frozen] at h1
    simp only at h2
    constructor
    · exact ⟨g.url, g.branch, by simp [Source.update, GitSource.update, h1, h2]⟩
    · simp [Source.update, GitSource.update, h1, h2]
  | GitHub g =>
    simp only [Source.frozen] at h1
    simp only at h2
    constructor
    · exact ⟨GitHubSource.git_url g.owner g.repo, g.branch,
        by simp [Source.update, GitHubSource.update, h1, h2]⟩
    · simp [Source.update, GitHubSource.update, h1, h2]
/-- Claim C6: for every single-pair composer input with no rev list, the
rendered commit message is exactly
"lon: update <name>\n\n  <old>\n→ <new>\n"; with any other number of pairs
the title line is "lon: update" without a name. -/
theorem claim_C6 (name : Str) (old_revision new_revision : Revision) :
    CommitMessage.display ⟨[(name, UpdateSummary.new old_revision new_revision)]⟩ =
      some (str "lon: update " ++ name ++ str "\n\n  " ++ old_revision.val
        ++ str "\n→ " ++ new_revision.val ++ str "\n") ∧
    ∀ m : CommitMessage, m.updates.length ≠ 1 →
      CommitMessage.display m = (CommitMessage.body m).map (fun b => str "lon: update\n" ++ b) := by
  constructor
  · simp [CommitMessage.display, CommitMessage.body, CommitMessage.rev_list_overview,
      UpdateSummary.new, str]
  · intro m hm
    obtain ⟨ups⟩ := m
    match ups with
    | [] => simp [CommitMessage.display]
    | [x] => simp at hm
    | x :: y :: rest => simp [CommitMessage.display]
/-- Claim C10, counterexample: with LON_LIST_COMMITS set to "0" the limit is
0 even though the variable is set, refuting that the limit is 0 only when
the variable is unset. -/
theorem claim_C10_counterexample :
    list_commits_limit (some (str "0")) = 0 ∧ (some (str "0") : Option Str) ≠ none := by
  decide
/-- Claim C10 (amended): the bot's commit-history limit is 0 when
LON_LIST_COMMITS is unset or set to a value that parses to 0; for every set
value that fails to parse as a nonnegative integer within the usize range,
the limit silently defaults to 50; any value that parses is used as-is. -/
theorem claim_C10_amended :
    list_commits_limit none = 0 ∧
    (∀ s, parse_usize s = none → list_commits_limit (some s) = 50) ∧
    (∀ s n, parse_usize s = some n → list_commits_limit (some s) = n) := by
  refine ⟨rfl, ?_, ?_⟩
  · intro s h
    simp [list_commits_limit, h]
  · intro s n h
    simp [list_commits_limit, h]
/-- Claim C10, witness: the amended theorem evaluated at an unparsable and
at a parsable value of the variable. -/
theorem claim_C10_witness :
    parse_usize (str "abc") = none ∧ list_commits_limit (some (str "abc")) = 50 ∧
    parse_usize (str "7") = some 7 ∧ list_commits_limit (some (str "7")) = 7 :=
  ⟨by decide, claim_C10_amended.2.1 (str "abc") (by decide),
   by decide, claim_C10_amended.2.2 (str "7") 7 (by decide)⟩
/-- Claim C8, counterexample: calling `add` on a registry that already
contains the name silently replaces the stored source and reports no error,
refuting that `add` itself treats a duplicate name as an error. -/
theorem claim_C8_counterexample :
    c8_registry.contains (str "a") = true ∧
    Sources.add c8_registry (str "a") c8_source_2 = ⟨[(str "a", c8_source_2)]⟩ ∧
    Sources.get_mut (Sources.add c8_registry (str "a") c8_source_2) (str "a") ≠ some c8_source_1 := by
  decide
theorem insertAssoc_find (name : Str) (source : Source) :
    ∀ l : List (Str × Source),
      (insertAssoc name source l).find? (fun p => decide (p.1 = name)) = some (name, source) := by
  intro l
  induction l with
  | nil => simp [insertAssoc]
  | cons p rest ih =>
    by_cases hk : p.1 = name
    · cases p with
      | mk k v =>
        simp only at hk
        subst hk
        simp [insertAssoc]
    · cases p with
      | mk k v =>
        simp only at hk
        simp [insertAssoc, hk, ih]
/-- Claim C8 (amended): `Sources::add` itself overwrites unconditionally
(it is `BTreeMap::insert`); duplicate rejection happens in the CLI add
command, which errors out when the name already exists, before constructing
or inserting the source, so no existing source is overwritten through the
command. -/
theorem claim_C8_amended (env : GitEnv) (sources : Sources) (name url branch : Str)
    (revision : Option Str) (submodules frozen : Bool)
    (h : sources.contains name = true) :
    add_git_command env sources name url branch revision submodules frozen
      = .error (Err.alreadyExists name) ∧
    ∀ source : Source, Sources.get_mut (Sources.add sources name source) name = some source := by
  constructor
  · simp [add_git_command, h]
  · intro source
    simp [Sources.get_mut, Sources.add, insertAssoc_find]
/-- Claim C8, witness: the amended theorem evaluated at a concrete registry
that already contains the name. -/
theorem claim_C8_witness :
    add_git_command stubGitEnv c8_registry (str "a") (str "u") (str "m") none false false
      = .error (Err.alreadyExists (str "a")) ∧
    Sources.get_mut (Sources.add c8_registry (str "a") c8_source_2) (str "a") = some c8_source_2 :=
  ⟨(claim_C8_amended stubGitEnv c8_registry (str "a") (str "u") (str "m") none false false
      (by decide)).1,
   (claim_C8_amended stubGitEnv c8_registry (str "a") (str "u") (str "m") none false false
      (by decide)).2 c8_source_2⟩
/-- Claim C1, counterexample: a Git-source re-lock whose lastModified fetch
fails leaves the source holding the new revision and hash together with the
old lastModified — a stale mix, refuting the claim that after a failed
re-lock attempt the source holds its prior combination. -/
theorem claim_C1_counterexample :
    (GitSource.update c1_env c1_source).1 = .error (.transport []) ∧
    (GitSource.update c1_env c1_source).2.1.revision = ⟨str "r2r2r2r2"⟩ ∧
    (GitSource.update c1_env c1_source).2.1.hash = str "h2" ∧
    (GitSource.update c1_env c1_source).2.1.last_modified = some 11 ∧
    (GitSource.update c1_env c1_source).2.1 ≠ c1_source :=
  ⟨rfl, rfl, rfl, rfl, by decide⟩
/-- Claim C1 (amended): re-locking is atomic for GitHub sources — on failure
the source is unchanged, on success revision, hash and tarball URL are
replaced together.  For Git sources, a hash-computation failure leaves the
source unchanged and full success replaces revision, hash and lastModified
together; but when the lastModified fetch fails after a successful hash
computation, the failed re-lock leaves the source with the new revision and
hash paired with its old lastModified. -/
theorem claim_C1_amended (env : GitEnv) :
    (∀ (s : GitSource) (rev : Revision) (e : Err),
      env.prefetch_git s.url rev.val s.submodules = .error e →
      GitSource.lock env s rev = (.error e, s, [Call.prefetch_git s.url rev.val s.submodules])) ∧
    (∀ (s : GitSource) (rev : Revision) (h : NixHash) (lm : Nat),
      env.prefetch_git s.url rev.val s.submodules = .ok h →
      env.get_last_modified s.url rev.val = .ok lm →
      (GitSource.lock env s rev).1 = .ok () ∧
      (GitSource.lock env s rev).2.1
        = { s with revision := rev, hash := h, last_modified := some lm }) ∧
    (∀ (s : GitSource) (rev : Revision) (h : NixHash) (e : Err),
      env.prefetch_git s.url rev.val s.submodules = .ok h →
      env.get_last_modified s.url rev.val = .error e →
      (GitSource.lock env s rev).1 = .error e ∧
      (GitSource.lock env s rev).2.1 = { s with revision := rev, hash := h }) ∧
    (∀ (s : GitHubSource) (rev : Revision) (e : Err),
      (GitHubSource.lock env s rev).1 = .error e → (GitHubSource.lock env s rev).2.1 = s) ∧
    (∀ (s : GitHubSource) (rev : Revision),
      (GitHubSource.lock env s rev).1 = .ok () →
      ∃ h, env.prefetch_tarball (GitHubSource.tarball_url s.owner s.repo rev.val) = .ok h ∧
        (GitHubSource.lock env s rev).2.1
          = { s with revision := rev, hash := h,
                     url := GitHubSource.tarball_url s.owner s.repo rev.val }) := by
  refine ⟨?_, ?_, ?_, ?_, ?_⟩
  · intro s rev e he
    simp [GitSource.lock, he]
  · intro s rev h lm hh hlm
    simp [GitSource.lock, hh, hlm]
  · intro s rev h e hh he
    simp [GitSource.lock, hh, he]
  · intro s rev e
    cases htb : env.prefetch_tarball (GitHubSource.tarball_url s.owner s.repo rev.val) with
    | error e2 => simp [GitHubSource.lock, htb]
    | ok h => simp [GitHubSource.lock, htb]
  · intro s rev
    cases htb : env.prefetch_tarball (GitHubSource.tarball_url s.owner s.repo rev.val) with
    | error e2 => simp [GitHubSource.lock, htb]
    | ok h =>
      intro _
      exact ⟨h, rfl, by simp [GitHubSource.lock, htb]⟩
/-- Claim C1, witness: the amended theorem evaluated at a concrete Git
source whose lastModified fetch fails after a successful hash
computation. -/
theorem claim_C1_witness :
    (GitSource.lock c1_env c1_source ⟨str "r2r2r2r2"⟩).1 = .error (.transport []) ∧
    (GitSource.lock c1_env c1_source ⟨str "r2r2r2r2"⟩).2.1
      = { c1_source with revision := ⟨str "r2r2r2r2"⟩, hash := str "h2" } :=
  (claim_C1_amended c1_env).2.2.1 c1_source ⟨str "r2r2r2r2"⟩ (str "h2") (.transport [])
    rfl rfl
/-- Claim C2, witness: the theorem evaluated at a concrete frozen source and
an environment in which every discovery call would fail. -/
theorem claim_C2_witness :
    Source.frozen c2_frozen_source = true ∧
    Source.update stubGitEnv c2_frozen_source = (.ok none, c2_frozen_source, []) :=
  ⟨by decide, claim_C2 stubGitEnv c2_frozen_source (by decide)⟩
/-- Claim C5, witness: the theorem evaluated at a concrete unfrozen source
whose upstream ref lookup returns the locked revision. -/
theorem claim_C5_witness :
    (∃ u b, Source.update c5_env c5_source = (.ok none, c5_source, [Call.find_newest_revision u b])) ∧
    Source.update c5_env ((Source.update c5_env c5_source).2.1) = Source.update c5_env c5_source :=
  claim_C5 c5_env c5_source (by decide) rfl
/-- Claim C6, witness: the theorem evaluated at the concrete example from
the repository's unit test, and at an empty update list. -/
theorem claim_C6_witness :
    CommitMessage.display ⟨[(str "fake_1",
      UpdateSummary.new (Revision.new (str "043344a1c19619435e2b79cd42de6592308af0aa"))
        (Revision.new (str "21386f9d14831b594048e1e4340ac7a300e312d6")))]⟩
      = some (str "lon: update " ++ str "fake_1" ++ str "\n\n  "
          ++ str "043344a1c19619435e2b79cd42de6592308af0aa" ++ str "\n→ "
          ++ str "21386f9d14831b594048e1e4340ac7a300e312d6" ++ str "\n") ∧
    CommitMessage.display ⟨[]⟩ = (CommitMessage.body ⟨[]⟩).map (fun b => str "lon: update\n" ++ b) :=
  ⟨(claim_C6 (str "fake_1") (Revision.new (str "043344a1c19619435e2b79cd42de6592308af0aa"))
      (Revision.new (str "21386f9d14831b594048e1e4340ac7a300e312d6"))).1,
   (claim_C6 [] ⟨[]⟩ ⟨[]⟩).2 ⟨[]⟩ (by decide)⟩
theorem takeBytes_eq_none (s : Str) : ∀ n, utf8Len s < n → takeBytes n s = none := by
  induction s with
  | nil =>
    intro n h
    match n, h with
    | n + 1, _ => rfl
  | cons c cs ih =>
    intro n h
    match n with
    | 0 => omega
    | n + 1 =>
      simp only [takeBytes]
      by_cases hc : Char.utf8Size c ≤ n + 1
      · rw [if_pos hc]
        rw [ih (n + 1 - Char.utf8Size c) ?_]
        · rfl
        · have hpos := Char.utf8Size_pos c
          simp only [utf8Len, List.map_cons, List.sum_cons] at h ⊢
          omega
      · rw [if_neg hc]
theorem mapOpt_eq_none {α β : Type} {f : α → Option β} {l : List α} {x : α}
    (hx : x ∈ l) (hfx : f x = none) : mapOpt f l = none := by
  induction l with
  | nil => cases hx
  | cons y ys ih =>
    cases hx with
    | head => simp [mapOpt, hfx]
    | tail _ hy =>
      simp only [mapOpt]
      cases hfy : f y with
      | none => rfl
      | some b => simp [ih hy]
theorem rev_list_overview_eq_none {summary : UpdateSummary} {rl : RevList} {c : Commit}
    (hrl : summary.rev_list = some rl) (hc : c ∈ rl.revs) (hshort : c.revision.short = none)
    (indent : Nat) :
    CommitMessage.rev_list_overview summary indent = none := by
  simp only [CommitMessage.rev_list_overview, hrl]
  rw [mapOpt_eq_none hc (by simp [hshort])]
  rfl
theorem body_eq_none {m : CommitMessage} {name : Str} {summary : UpdateSummary}
    (hmem : (name, summary) ∈ m.updates)
    (hov : ∀ indent, CommitMessage.rev_list_overview summary indent = none) :
    CommitMessage.body m = none := by
  obtain ⟨ups⟩ := m
  simp only at hmem
  cases ups with
  | nil => cases hmem
  | cons p rest =>
    obtain ⟨n, s⟩ := p
    cases rest with
    | nil =>
      have : n = name ∧ s = summary := by
        have := List.mem_singleton.mp hmem
        exact ⟨(Prod.mk.injEq _ _ _ _ ▸ this.symm).1, (Prod.mk.injEq _ _ _ _ ▸ this.symm).2⟩
      obtain ⟨hn, hs⟩ := this
      subst hs
      simp [CommitMessage.body, hov 0]
    | cons q rest2 =>
      have hf : (fun p : Str × UpdateSummary =>
          match CommitMessage.rev_list_overview p.2 2 with
          | none => none
          | some none =>
            some (str "\n" ++ str "• " ++ p.1 ++ str ":\n"
              ++ str "    " ++ p.2.old_revision.val ++ str "\n"
              ++ str "  → " ++ p.2.new_revision.val ++ str "\n")
          | some (some o) =>
            some (str "\n" ++ str "• " ++ p.1 ++ str ":\n"
              ++ str "    " ++ p.2.old_revision.val ++ str "\n"
              ++ str "  → " ++ p.2.new_revision.val ++ str "\n"
              ++ str "\n" ++ o ++ str "\n")) (name, summary) = none := by
        simp [hov 2]
      simp only [CommitMessage.body]
      rw [mapOpt_eq_none hmem hf]
      rfl
/-- Claim C9: `Revision::short` slices the first 7 bytes directly, so for
every revision shorter than 7 bytes it panics instead of returning a value,
and rendering any commit message whose attached rev list contains such a
revision panics as well (the panic is modelled as `none`). -/
theorem claim_C9 (r : Revision) (hlen : utf8Len r.val < 7) :
    Revision.short r = none ∧
    ∀ (m : CommitMessage) (name : Str) (summary : UpdateSummary) (rl : RevList) (c : Commit),
      (name, summary) ∈ m.updates → summary.rev_list = some rl → c ∈ rl.revs →
      c.revision = r → CommitMessage.display m = none := by
  have hshort : Revision.short r = none := takeBytes_eq_none r.val 7 hlen
  refine ⟨hshort, ?_⟩
  intro m name summary rl c hmem hrl hc hcr
  have hov : ∀ indent, CommitMessage.rev_list_overview summary indent = none :=
    fun indent => rev_list_overview_eq_none hrl hc (by rw [hcr]; exact hshort) indent
  have hbody := body_eq_none hmem hov
  simp [CommitMessage.display, hbody]
/-- Claim C9, witness: the theorem evaluated at a concrete 3-byte revision
inside an attached rev list. -/
theorem claim_C9_witness :
    utf8Len (str "abc") < 7 ∧
    Revision.short ⟨str "abc"⟩ = none ∧
    CommitMessage.display
      ⟨[(str "n", ⟨⟨str "old"⟩, ⟨str "new"⟩, some ⟨[⟨⟨str "abc"⟩, str "msg"⟩]⟩⟩)]⟩ = none :=
  ⟨by decide, (claim_C9 ⟨str "abc"⟩ (by decide)).1,
   (claim_C9 ⟨str "abc"⟩ (by decide)).2
     ⟨[(str "n", ⟨⟨str "old"⟩, ⟨str "new"⟩, some ⟨[⟨⟨str "abc"⟩, str "msg"⟩]⟩⟩)]⟩
     (str "n") ⟨⟨str "old"⟩, ⟨str "new"⟩, some ⟨[⟨⟨str "abc"⟩, str "msg"⟩]⟩⟩
     ⟨[⟨⟨str "abc"⟩, str "msg"⟩]⟩ ⟨⟨str "abc"⟩, str "msg"⟩
     (by decide) rfl (by decide) rfl⟩
theorem updateLoop_no_persist (env : GitEnv) :
    ∀ (names : List Str) (ss : Sources) (cm : List (Str × UpdateSummary)),
      UpdateAction.persist ∉ (updateLoop env names ss cm).2 := by
  intro names
  induction names with
  | nil =>
    intro ss cm
    simp [updateLoop]
  | cons name rest ih =>
    intro ss cm
    simp only [updateLoop]
    cases hg : ss.get_mut name with
    | none => simp
    | some source =>
      rcases hu : Source.update env source with ⟨r, source1, calls⟩
      cases r with
      | error e => simp [hu]
      | ok osum =>
        cases osum with
        | none => simp [hu, ih]
        | some summary => simp [hu, ih]
theorem updateLoop_ok_trace (env : GitEnv) :
    ∀ (names : List Str) (ss : Sources) (cm : List (Str × UpdateSummary))
      (r : Sources × List (Str × UpdateSummary)),
      (updateLoop env names ss cm).1 = .ok r →
      (updateLoop env names ss cm).2 = names.map UpdateAction.update_source := by
  intro names
  induction names with
  | nil =>
    intro ss cm r _
    simp [updateLoop]
  | cons name rest ih =>
    intro ss cm r h
    simp only [updateLoop] at h ⊢
    cases hg : ss.get_mut name with
    | none => simp [hg] at h
    | some source =>
      rcases hu : Source.update env source with ⟨rr, source1, calls⟩
      cases rr with
      | error e => simp [hg, hu] at h
      | ok osum =>
        cases osum with
        | none =>
          simp only [hg, hu, List.map_cons] at h ⊢
          exact congrArg _ (ih _ _ r h)
        | some summary =>
          simp only [hg, hu, List.map_cons] at h ⊢
          exact congrArg _ (ih _ _ r h)
theorem update_selected_error_no_persist (env : GitEnv) (sources : Sources)
    (names : List Str) (e : Err) (acts : List UpdateAction)
    (h : update_selected env sources names = (.error e, acts)) :
    UpdateAction.persist ∉ acts := by
  simp only [update_selected] at h
  by_cases hn : names = []
  · rw [if_pos hn] at h
    cases h
    simp
  · rw [if_neg hn] at h
    rcases hloop : updateLoop env names sources [] with ⟨r, acts'⟩
    rw [hloop] at h
    cases r with
    | error e2 =>
      cases h
      have hnp := updateLoop_no_persist env names sources []
      rw [hloop] at hnp
      exact hnp
    | ok pair =>
      obtain ⟨ss1, cm⟩ := pair
      by_cases hcm : cm = []
      · subst hcm
        simp only [if_pos rfl] at h
        cases h
        have hnp := updateLoop_no_persist env names sources []
        rw [hloop] at hnp
        exact hnp
      · simp only [if_neg hcm] at h
        cases h
/-- Claim C4: for the direct update command over a selected set of source
names — every error outcome (missing selected name, per-source update
failure, zero summaries) aborts the batch with nothing persisted; a
selected name missing from the registry produces an error; zero summaries
reports that no updates are available without persisting; a per-source
update failure aborts the batch with nothing persisted; and on success the
registry is persisted exactly once, after all selected sources have been
processed. -/
theorem claim_C4 (env : GitEnv) (sources : Sources) (arg_name : Option Str) :
    (∀ e acts, update_command env sources arg_name = (.error e, acts) →
      UpdateAction.persist ∉ acts) ∧
    (∀ n, arg_name = some n → sources.contains n = false →
      ∃ e acts, update_command env sources arg_name = (.error e, acts)) ∧
    (∀ acts ss1, selected_names sources arg_name ≠ [] →
      updateLoop env (selected_names sources arg_name) sources [] = (.ok (ss1, []), acts) →
      update_command env sources arg_name = (.error Err.noUpdates, acts)) ∧
    (∀ n src e, arg_name = some n → sources.get_mut n = some src →
      (Source.update env src).1 = .error e →
      update_command env sources arg_name
        = (.error (Err.context n e), [UpdateAction.update_source n])) ∧
    (∀ ss1 acts, update_command env sources arg_name = (.ok ss1, acts) →
      acts = (selected_names sources arg_name).map UpdateAction.update_source
        ++ [UpdateAction.persist]) := by
  refine ⟨?_, ?_, ?_, ?_, ?_⟩
  · intro e acts h
    exact update_selected_error_no_persist env sources _ e acts h
  · intro n harg hcon
    subst harg
    have hg : sources.get_mut n = none := by
      simp only [Sources.contains] at hcon
      simp only [Sources.get_mut]
      cases hfind : List.find? (fun p => decide (p.1 = n)) sources.map with
      | none => rfl
      | some p => rw [hfind] at hcon; simp at hcon
    refine ⟨Err.notFound n, [], ?_⟩
    simp [update_command, update_selected, selected_names, updateLoop, hg]
  · intro acts ss1 hn hloop
    simp only [update_command, update_selected, if_neg hn, hloop]
    simp
  · intro n src e harg hget hup
    subst harg
    rcases hu : Source.update env src with ⟨r, s1, cls⟩
    rw [hu] at hup
    simp only at hup
    subst hup
    simp [update_command, update_selected, selected_names, updateLoop, hget, hu]
  · intro ss1 acts h
    simp only [update_command, update_selected] at h
    by_cases hn : selected_names sources arg_name = []
    · rw [if_pos hn] at h
      cases h
    · rw [if_neg hn] at h
      rcases hloop : updateLoop env (selected_names sources arg_name) sources [] with ⟨r, acts'⟩
      rw [hloop] at h
      cases r with
      | error e => cases h
      | ok pair =>
        obtain ⟨ss2, cm⟩ := pair
        by_cases hcm : cm = []
        · subst hcm
          simp only [if_pos rfl] at h
          cases h
        · simp only [if_neg hcm] at h
          rw [Prod.mk.injEq] at h
          obtain ⟨h1, h2⟩ := h
          subst h2
          have htr := updateLoop_ok_trace env (selected_names sources arg_name) sources [] (ss2, cm)
          rw [hloop] at htr
          have hacts : acts' = List.map UpdateAction.update_source (selected_names sources arg_name) :=
            htr rfl
          rw [hacts]
/-- Claim C4, witness: the theorem evaluated at concrete registries for
each conjunct — a missing name, a frozen (no-change) source, a failing
update, and a successful update. -/
theorem claim_C4_witness :
    UpdateAction.persist ∉ ([] : List UpdateAction) ∧
    (∃ e acts, update_command stubGitEnv ⟨[]⟩ (some (str "a")) = (.error e, acts)) ∧
    update_command stubGitEnv c4_frozen_sources none
      = (.error Err.noUpdates, [UpdateAction.update_source (str "a")]) ∧
    update_command stubGitEnv c4_sources (some (str "a"))
      = (.error (Err.context (str "a") (Err.transport [])),
         [UpdateAction.update_source (str "a")]) ∧
    [UpdateAction.update_source (str "a"), UpdateAction.persist]
      = (selected_names c4_sources none).map UpdateAction.update_source
        ++ [UpdateAction.persist] :=
  ⟨(claim_C4 stubGitEnv ⟨[]⟩ (some (str "a"))).1 (Err.notFound (str "a")) [] rfl,
   (claim_C4 stubGitEnv ⟨[]⟩ (some (str "a"))).2.1 (str "a") rfl (by decide),
   (claim_C4 stubGitEnv c4_frozen_sources none).2.2.1 [UpdateAction.update_source (str "a")]
     c4_frozen_sources (by decide) rfl,
   (claim_C4 stubGitEnv c4_sources (some (str "a"))).2.2.2.1 (str "a")
     (.Git ⟨str "u", str "m", ⟨str "r1"⟩, str "h1", some 1, false, false⟩)
     (Err.transport []) rfl rfl rfl,
   (claim_C4 c4_env c4_sources none).2.2.2.2 c4_sources_updated
     [UpdateAction.update_source (str "a"), UpdateAction.persist] rfl⟩
theorem splitNewline_ne_nil : ∀ s : Str, splitNewline s ≠ [] := by
  intro s
  induction s with
  | nil => simp [splitNewline]
  | cons c cs ih =>
    simp only [splitNewline]
    by_cases hc : c = '\n'
    · simp [hc]
    · rw [if_neg hc]
      cases h : splitNewline cs with
      | nil => simp
      | cons l ls => simp
theorem splitNewline_append {l : Str} (hl : '\n' ∉ l) (s : Str) :
    splitNewline (l ++ '\n' :: s) = l :: splitNewline s := by
  induction l with
  | nil => simp [splitNewline]
  | cons c cs ih =>
    have hc : c ≠ '\n' := fun hc => hl (hc ▸ List.mem_cons_self c cs)
    have hcs : '\n' ∉ cs := fun hm => hl (List.mem_cons_of_mem c hm)
    have hstep : (c :: cs) ++ '\n' :: s = c :: (cs ++ '\n' :: s) := rfl
    rw [hstep]
    simp only [splitNewline, if_neg hc]
    rw [ih hcs]
theorem splitNewline_no_newline {l : Str} (hl : '\n' ∉ l) : splitNewline l = [l] := by
  induction l with
  | nil => rfl
  | cons c cs ih =>
    have hc : c ≠ '\n' := fun hc => hl (hc ▸ List.mem_cons_self c cs)
    have hcs : '\n' ∉ cs := fun hm => hl (List.mem_cons_of_mem c hm)
    simp only [splitNewline, if_neg hc]
    rw [ih hcs]
theorem rustLines_cons {l : Str} (hl : '\n' ∉ l) (s : Str) :
    rustLines (l ++ '\n' :: s) = stripTrailingCR l :: rustLines s := by
  simp only [rustLines, splitNewline_append hl]
  cases hsp : splitNewline s with
  | nil => exact absurd hsp (splitNewline_ne_nil s)
  | cons x xs =>
    simp only [dropLastEmpty, List.map_cons]
theorem rustLines_single {l : Str} (hl : '\n' ∉ l) (hne : l ≠ []) :
    rustLines l = [stripTrailingCR l] := by
  simp only [rustLines, splitNewline_no_newline hl, dropLastEmpty, if_neg hne, List.map_cons,
    List.map_nil]
theorem splitOnce_append {r : Str} (hr : ' ' ∉ r) (m : Str) :
    splitOnce ' ' (r ++ ' ' :: m) = some (r, m) := by
  induction r with
  | nil => simp [splitOnce]
  | cons c cs ih =>
    have hc : c ≠ ' ' := fun hc => hr (hc ▸ List.mem_cons_self c cs)
    have hcs : ' ' ∉ cs := fun hm => hr (List.mem_cons_of_mem c hm)
    have hstep : (c :: cs) ++ ' ' :: m = c :: (cs ++ ' ' :: m) := rfl
    rw [hstep]
    simp only [splitOnce, if_neg hc]
    rw [ih hcs]
    rfl
theorem line_facts {r m : Str} (hr : ' ' ∉ r) (hrn : '\n' ∉ r) (hmn : '\n' ∉ m)
    (hmr : m.getLast? ≠ some '\r') :
    '\n' ∉ (r ++ ' ' :: m) ∧ stripTrailingCR (r ++ ' ' :: m) = r ++ ' ' :: m ∧
    splitOnce ' ' (r ++ ' ' :: m) = some (r, m) := by
  refine ⟨?_, ?_, splitOnce_append hr m⟩
  · intro hmem
    rcases List.mem_append.mp hmem with h1 | h2
    · exact hrn h1
    · rcases List.mem_cons.mp h2 with h3 | h4
      · cases h3
      · exact hmn h4
  · have hlast : (' ' :: m).getLast? ≠ some '\r' := by
      cases m with
      | nil => decide
      | cons a as =>
        rw [List.getLast?_cons_cons]
        exact hmr
    unfold stripTrailingCR
    rw [List.getLast?_append_cons, if_neg hlast]
/-- Claim C7 (amended): building a `RevList` directly from
(revision, message) pairs and parsing the corresponding line-oriented
"<rev> <message>" text produce structurally identical values provided each
revision contains no space and no newline and each message contains no
newline and does not end in a carriage return. -/
theorem claim_C7_amended (pairs : List (Str × Str))
    (h : ∀ p ∈ pairs, (' ' ∉ p.1 ∧ '\n' ∉ p.1) ∧ '\n' ∉ p.2 ∧ p.2.getLast? ≠ some '\r') :
    RevList.from_git_output (renderGitOutput pairs)
      = RevList.from_commits (pairs.map (fun p => Commit.from_str p.1 p.2)) := by
  induction pairs with
  | nil => rfl
  | cons p rest ih =>
    obtain ⟨⟨hr, hrn⟩, hmn, hmr⟩ := h p (List.mem_cons_self p rest)
    obtain ⟨hline_n, hline_cr, hline_split⟩ := line_facts hr hrn hmn hmr
    cases rest with
    | nil =>
      simp only [renderGitOutput, RevList.from_git_output]
      have hne : p.1 ++ ' ' :: p.2 ≠ [] := by simp
      rw [rustLines_single hline_n hne, hline_cr]
      simp [hline_split, RevList.from_commits]
    | cons q rest2 =>
      have ihr := ih (fun p2 hp2 => h p2 (List.mem_cons_of_mem p hp2))
      have hassoc : renderGitOutput (p :: q :: rest2)
          = (p.1 ++ ' ' :: p.2) ++ '\n' :: renderGitOutput (q :: rest2) := by
        simp only [renderGitOutput]
      simp only [RevList.from_git_output] at ihr ⊢
      rw [hassoc, rustLines_cons hline_n, hline_cr]
      rw [RevList.mk.injEq] at ihr ⊢
      simp only [List.filterMap_cons, hline_split, List.map_cons]
      simp [ihr, RevList.from_commits]
/-- Claim C7, counterexample: a pair whose message contains a newline
parses into different commits than the direct construction, refuting the
unconditional equivalence. -/
theorem claim_C7_counterexample :
    RevList.from_git_output (renderGitOutput [(str "abc1234", str "line1\nline2")])
      ≠ RevList.from_commits ([(str "abc1234", str "line1\nline2")].map
          (fun p => Commit.from_str p.1 p.2)) := by
  decide
/-- Claim C7, witness: the amended theorem evaluated at two concrete
single-line pairs. -/
theorem claim_C7_witness :
    RevList.from_git_output (renderGitOutput
      [(str "8ac85cd", str "treewide: release 0.3.0"),
       (str "6f6df87", str "Cargo.toml: upgrade dependencies")])
      = RevList.from_commits
          ([(str "8ac85cd", str "treewide: release 0.3.0"),
            (str "6f6df87", str "Cargo.toml: upgrade dependencies")].map
            (fun p => Commit.from_str p.1 p.2)) :=
  claim_C7_amended
    [(str "8ac85cd", str "treewide: release 0.3.0"),
     (str "6f6df87", str "Cargo.toml: upgrade dependencies")]
    (by decide)
/-- Claim C3: in a bot run over two unfrozen sources where source A's forge
pull-request call fails with a transport error and source B's succeeds, the
failure for A is only logged as a warning (A's branch stays pushed), both
sources are attempted, a pull-request URL is reported for B, the run
completes without error, and the working tree ends checked out back on the
captured base reference. -/
theorem claim_C3 (env : BotEnv) (nameA nameB base prUrl : Str) (prErr : Err)
    (srcA srcB srcA1 srcB1 : Source) (sumA sumB : UpdateSummary)
    (callsA callsB : List Call)
    (hread : env.read_sources = .ok ⟨[(nameA, srcA), (nameB, srcB)]⟩)
    (hbase : env.current_rev = .ok base)
    (hne : nameA ≠ nameB)
    (hfA : Source.frozen srcA = false) (hfB : Source.frozen srcB = false)
    (hlc : env.list_commits_var = none)
    (hupA : Source.update env.git srcA = (.ok (some sumA), srcA1, callsA))
    (hupB : Source.update env.git srcB = (.ok (some sumB), srcB1, callsB))
    (hrlA : sumA.rev_list = none) (hrlB : sumB.rev_list = none)
    (hco : ∀ r b, env.checkout r b = .ok ())
    (hw : ∀ ss, env.write ss = .ok ())
    (hln : env.lon_nix_update = .ok ())
    (hcm : ∀ m, env.commit m = .ok ())
    (hpush : ∀ b, env.force_push b = .ok ())
    (hprA : ∀ b, env.open_pull_request (str "lon/" ++ nameA) nameA b = .error prErr)
    (hprB : ∀ b, env.open_pull_request (str "lon/" ++ nameB) nameB b = .ok prUrl) :
    bot env = (.ok (),
      [BotEvent.checkout base, BotEvent.checkout_branch (str "lon/" ++ nameA),
       BotEvent.persisted nameA, BotEvent.committed nameA,
       BotEvent.pushed (str "lon/" ++ nameA), BotEvent.pr_warn nameA,
       BotEvent.checkout base, BotEvent.checkout_branch (str "lon/" ++ nameB),
       BotEvent.persisted nameB, BotEvent.committed nameB,
       BotEvent.pushed (str "lon/" ++ nameB), BotEvent.pr_opened nameB prUrl,
       BotEvent.checkout base]) := by
  simp [bot, hbase, bot_fallible, hread, Sources.names, list_commits_limit, hlc, bot_loop,
    Sources.get_mut, List.find?, hne, hfA, hfB, hco, hupA, hupB, hw, hln, hcm, hpush,
    hprA, hprB, CommitMessage.display, CommitMessage.body, CommitMessage.rev_list_overview,
    hrlA, hrlB]
/-- Claim C3, witness: the theorem evaluated at a concrete two-source
registry and environment where the forge call fails for the first source
and succeeds for the second. -/
theorem claim_C3_witness :
    bot c3_env = (.ok (),
      [BotEvent.checkout (str "base"), BotEvent.checkout_branch (str "lon/" ++ str "a"),
       BotEvent.persisted (str "a"), BotEvent.committed (str "a"),
       BotEvent.pushed (str "lon/" ++ str "a"), BotEvent.pr_warn (str "a"),
       BotEvent.checkout (str "base"), BotEvent.checkout_branch (str "lon/" ++ str "b"),
       BotEvent.persisted (str "b"), BotEvent.committed (str "b"),
       BotEvent.pushed (str "lon/" ++ str "b"), BotEvent.pr_opened (str "b") (str "URL"),
       BotEvent.checkout (str "base")]) :=
  claim_C3 c3_env (str "a") (str "b") (str "base") (str "URL") (Err.transport [])
    c3_srcA c3_srcB
    (.Git ⟨str "ua", str "m", ⟨str "r2aaaaa"⟩, str "h2", some 7, false, false⟩)
    (.Git ⟨str "ub", str "m", ⟨str "r2bbbbb"⟩, str "h2", some 7, false, false⟩)
    (UpdateSummary.new ⟨str "r1aaaaa"⟩ ⟨str "r2aaaaa"⟩)
    (UpdateSummary.new ⟨str "r1bbbbb"⟩ ⟨str "r2bbbbb"⟩)
    [Call.find_newest_revision (str "ua") (str "m"),
     Call.prefetch_git (str "ua") (str "r2aaaaa") false,
     Call.get_last_modified (str "ua") (str "r2aaaaa")]
    [Call.find_newest_revision (str "ub") (str "m"),
     Call.prefetch_git (str "ub") (str "r2bbbbb") false,
     Call.get_last_modified (str "ub") (str "r2bbbbb")]
    rfl rfl (by decide) rfl rfl rfl rfl rfl rfl rfl
    (fun _ _ => rfl) (fun _ => rfl) rfl (fun _ => rfl) (fun _ => rfl)
    (fun _ => rfl) (fun _ => rfl)
